import Mathlib

/-!
Verification of the `x/upgrade` module (keeper.go) of regen-friends/cosmos-sdk.

Shallow embedding of the upgrade keeper: the `Plan` value object, the
module's key-value store slice (one pending-plan slot plus one done-record
per upgrade name), the `ScheduleUpgrade` validation/persist operation and
the `BeginBlocker` per-block trigger evaluation.

Modelling conventions:
  - Go `time.Time` is mapped order-preservingly to `Nat`, with the Go zero
    value mapped to `0`, so `t.IsZero()` becomes `t = 0`, `a.After b`
    becomes `b < a` and `a.Before b` becomes `a < b`.
  - Go `int64` block heights and plan heights are mapped to `Int`.
  - The store's serialized plan bytes are modelled as the `Plan` value
    itself (serialization is an external collaborator of this module);
    a done record's 8-byte big-endian `uint64(height)` payload is modelled
    as the `Nat` value of that cast, `(h % 2^64).toNat`.
  - The in-memory handler registry `map[string]Handler` is modelled by the
    list of names that have a registered handler; a handler invocation is
    recorded as the pair (block context, plan) it was called with, since
    the handler body is an arbitrary external callback.
  - Go `panic` (the two fatal halts of BeginBlocker) is modelled by a
    distinguished `halted` result carrying the panic message and the store
    content at panic time (a panicking block never commits its writes).
  - The four distinct `sdk.ErrUnknownRequest` messages returned by
    `ScheduleUpgrade` are modelled by the four constructors of
    `ScheduleError`, in source order of their message strings.
-/

namespace Upgrade

/-- `Plan` from x/upgrade: name, optional target height (0 = unset in Go),
optional target time (Go zero time = 0 here), free-text info. -/
structure Plan where
  name : String
  height : Int
  time : Nat
  info : String
deriving DecidableEq, Repr

/-- Block context: the parts of `sdk.Context` read by the keeper, namely
`ctx.BlockHeight()` and `ctx.BlockHeader().Time`. -/
structure Ctx where
  blockHeight : Int
  blockTime : Nat
deriving DecidableEq, Repr

/-- The module's slice of the KV store: the singleton pending-plan slot
(key `PlanKey() = [PlanByte]`) and the done records (keys
`DoneHeightKey name = DoneByte ++ name`), as an association list from the
upgrade name to the stored height payload. -/
structure Store where
  plan : Option Plan
  done : List (String × Nat)
deriving DecidableEq, Repr

/-- `uint64(h)` for an `int64` height `h`, as used by `setDone` when
building the done record's payload. -/
def uint64cast (h : Int) : Nat :=
  (h % ((2 : Int) ^ 64)).toNat

/-- `store.Has(DoneHeightKey(name))`. -/
def Store.doneHas (s : Store) (name : String) : Bool :=
  s.done.any (fun p => p.1 == name)

/-- `store.Get(DoneHeightKey(name))`: the stored height payload, if any. -/
def Store.doneGet (s : Store) (name : String) : Option Nat :=
  (s.done.find? (fun p => p.1 == name)).map (fun p => p.2)

/-- `store.Set(DoneHeightKey(name), bz)`: overwrite the done record. -/
def Store.doneSet (s : Store) (name : String) (v : Nat) : Store :=
  { s with done := (name, v) :: s.done.filter (fun p => !(p.1 == name)) }

/-- The four `sdk.ErrUnknownRequest` outcomes of `ScheduleUpgrade`, named
as in the specification's error taxonomy:
`invalidPlan` = "Name cannot be empty" (ValidateBasic),
`scheduleInPast` = "Upgrade cannot be scheduled in the past",
`invalidSchedule` = "Only one of Time or Height should be specified",
`alreadyCompleted` = "Upgrade with name %s has already been completed". -/
inductive ScheduleError where
  | invalidPlan
  | scheduleInPast
  | invalidSchedule
  | alreadyCompleted
deriving DecidableEq, Repr

/-- `Plan.ValidateBasic`: reject an empty name. -/
def Plan.validateBasic (plan : Plan) : Option ScheduleError :=
  if plan.name.length = 0 then some .invalidPlan else none

/-- Lines 98-105 of `ScheduleUpgrade`: after validation, reject a name
that already has a done record, otherwise persist the plan into the
singleton pending slot. -/
def persistPlan (plan : Plan) (s : Store) : Except ScheduleError Unit × Store :=
  if s.doneHas plan.name then (.error .alreadyCompleted, s)
  else (.ok (), { s with plan := some plan })

/-- `keeper.ScheduleUpgrade(ctx, plan)`: validate the name, the
height/time combination and the target against the current block, then
check the done record and persist. Returns the error (if any) together
with the resulting store. -/
def scheduleUpgrade (ctx : Ctx) (plan : Plan) (s : Store) :
    Except ScheduleError Unit × Store :=
  match plan.validateBasic with
  | some e => (.error e, s)
  | none =>
    if plan.time ≠ 0 then
      if ¬ ctx.blockTime < plan.time then (.error .scheduleInPast, s)
      else if plan.height ≠ 0 then (.error .invalidSchedule, s)
      else persistPlan plan s
    else
      if plan.height ≤ ctx.blockHeight then (.error .scheduleInPast, s)
      else persistPlan plan s

/-- `keeper.ClearUpgradePlan(ctx)`: delete the pending-plan slot. -/
def clearUpgradePlan (s : Store) : Store :=
  { s with plan := none }

/-- `keeper.GetUpgradePlan(ctx)`: the pending plan, `none` when the slot
is empty (the Go `havePlan` boolean is `isSome` of this). -/
def getUpgradePlan (s : Store) : Option Plan :=
  s.plan

/-- `keeper.setDone(ctx, name)`: record the current block height (as
`uint64`, big-endian serialized) under the done key for `name`. -/
def setDone (ctx : Ctx) (name : String) (s : Store) : Store :=
  s.doneSet name (uint64cast ctx.blockHeight)

/-- The trigger condition of `BeginBlocker` (line 156):
`(!upgradeTime.IsZero() && !blockTime.Before(upgradeTime)) ||
(upgradeHeight > 0 && upgradeHeight <= blockHeight)`. -/
def triggered (ctx : Ctx) (plan : Plan) : Bool :=
  (!(plan.time == 0) && !(decide (ctx.blockTime < plan.time))) ||
    (decide (plan.height > 0) && decide (plan.height ≤ ctx.blockHeight))

/-- Outcome of one `BeginBlocker` evaluation: either the evaluation
completes normally or it panics with a fatal message; both carry the
module store as the evaluation left it and the list of handler
invocations (block context, plan) performed, in order. -/
inductive EvalResult where
  | completed (s : Store) (calls : List (Ctx × Plan))
  | halted (msg : String) (s : Store) (calls : List (Ctx × Plan))
deriving DecidableEq, Repr

/-- `keeper.BeginBlocker(ctx, req)` with handler registry `handlers` (the
set of names for which `SetUpgradeHandler` was called): read the pending
plan; if none, no-op; if triggered and a handler is registered, invoke it
with (ctx, plan), clear the plan and write the done record; if triggered
without a handler, panic "UPGRADE REQUIRED!"; if not triggered but a
handler is registered, panic "BINARY UPDATED BEFORE TRIGGER!"; otherwise
no-op. -/
def beginBlocker (handlers : List String) (ctx : Ctx) (s : Store) : EvalResult :=
  match s.plan with
  | none => .completed s []
  | some plan =>
    if triggered ctx plan then
      if handlers.contains plan.name then
        .completed (setDone ctx plan.name (clearUpgradePlan s)) [(ctx, plan)]
      else
        .halted "UPGRADE REQUIRED!" s []
    else
      if handlers.contains plan.name then
        .halted "BINARY UPDATED BEFORE TRIGGER!" s []
      else
        .completed s []

/-- One step of the coordinator's history: a `ScheduleUpgrade` call, a
`ClearUpgradePlan` call, or one per-block `BeginBlocker` evaluation (with
whatever handler registry the running binary has at that block). -/
inductive Op where
  | schedule (ctx : Ctx) (plan : Plan)
  | clear
  | beginBlock (handlers : List String) (ctx : Ctx)
deriving DecidableEq, Repr

/-- Apply one operation to the store, returning the resulting store and
the handler invocations the step performed. A halted evaluation never
commits, so its store effect is whatever the evaluation had written at
panic time (which, in this code, is nothing). -/
def applyOp (s : Store) : Op → Store × List (Ctx × Plan)
  | .schedule ctx plan => ((scheduleUpgrade ctx plan s).2, [])
  | .clear => (clearUpgradePlan s, [])
  | .beginBlock handlers ctx =>
    match beginBlocker handlers ctx s with
    | .completed s' calls => (s', calls)
    | .halted _ s' calls => (s', calls)

/-- Run a sequence of operations from a store, collecting every handler
invocation of the whole history in order. -/
def run (s : Store) : List Op → Store × List (Ctx × Plan)
  | [] => (s, [])
  | op :: ops =>
    let step := applyOp s op
    let rest := run step.1 ops
    (rest.1, step.2 ++ rest.2)

/-- The chain's genesis store: no pending plan, no done records. -/
def initStore : Store := { plan := none, done := [] }

/-- Number of handler invocations for upgrade `name` in a call trace. -/
def callCount (name : String) (calls : List (Ctx × Plan)) : Nat :=
  calls.countP (fun c => c.2.name == name)

end Upgrade

namespace Upgrade

/-! ### Helper lemmas about the store operations -/

lemma validateBasic_eq_none {plan : Plan} (h : plan.name ≠ "") :
    plan.validateBasic = none := by
  unfold Plan.validateBasic
  rw [if_neg]
  intro hl
  exact h (String.ext (List.length_eq_zero.mp hl))

lemma doneHas_doneSet_iff (s : Store) (n m : String) (v : Nat) :
    (s.doneSet n v).doneHas m = true ↔ (m = n ∨ s.doneHas m = true) := by
  simp only [Store.doneSet, Store.doneHas, List.any_eq_true, List.any_cons,
    List.mem_filter, Bool.or_eq_true, beq_iff_eq]
  constructor
  · rintro (h | ⟨p, ⟨hp, hkeep⟩, hm⟩)
    · exact Or.inl h.symm
    · exact Or.inr ⟨p, hp, hm⟩
  · rintro (h | ⟨p, hp, hm⟩)
    · exact Or.inl h.symm
    · by_cases hpn : p.1 = n
      · exact Or.inl (hm ▸ hpn.symm)
      · exact Or.inr ⟨p, ⟨hp, by simpa using hpn⟩, hm⟩

lemma doneGet_doneSet_self (s : Store) (n : String) (v : Nat) :
    (s.doneSet n v).doneGet n = some v := by
  simp [Store.doneSet, Store.doneGet, List.find?]

/-! ### Claim theorems: trigger evaluation -/

/-- C3: with a pending plan, the trigger decision of a block evaluation is
computed exactly as `(plan.time is set AND block time >= plan.time) OR
(plan.height > 0 AND plan.height <= block height)`. -/
theorem triggered_decision (ctx : Ctx) (plan : Plan) :
    triggered ctx plan = true ↔
      ((plan.time ≠ 0 ∧ plan.time ≤ ctx.blockTime) ∨
        (0 < plan.height ∧ plan.height ≤ ctx.blockHeight)) := by
  simp [triggered, Nat.not_lt]

/-- C9: a block evaluation in a state with no pending plan neither halts
nor invokes any handler nor mutates the store. -/
theorem beginBlocker_no_plan (handlers : List String) (ctx : Ctx) (s : Store)
    (h : s.plan = none) :
    beginBlocker handlers ctx s = .completed s [] := by
  simp [beginBlocker, h]

/-- Witness for C9 at a concrete empty store. -/
theorem beginBlocker_no_plan_witness :
    beginBlocker ["test"] ⟨10, 100⟩ initStore = .completed initStore [] :=
  beginBlocker_no_plan ["test"] ⟨10, 100⟩ initStore rfl

/-- C5: a block evaluation whose pending plan is triggered but has no
registered handler halts fatally, with the store (pending plan and done
records) untouched at the halt and no handler invoked. -/
theorem beginBlocker_missing_handler (handlers : List String) (ctx : Ctx)
    (s : Store) (plan : Plan) (hp : s.plan = some plan)
    (ht : triggered ctx plan = true)
    (hh : handlers.contains plan.name = false) :
    beginBlocker handlers ctx s = .halted "UPGRADE REQUIRED!" s [] := by
  have hh' : plan.name ∉ handlers := by simpa using hh
  simp [beginBlocker, hp, ht, hh']

/-- Witness for C5: plan "test" at height 11 triggers at block 11 with an
empty registry. -/
theorem beginBlocker_missing_handler_witness :
    beginBlocker [] ⟨11, 100⟩ { plan := some ⟨"test", 11, 0, ""⟩, done := [] } =
      .halted "UPGRADE REQUIRED!" { plan := some ⟨"test", 11, 0, ""⟩, done := [] } [] :=
  beginBlocker_missing_handler [] ⟨11, 100⟩ _ ⟨"test", 11, 0, ""⟩ rfl (by decide) rfl

/-- C6: with a pending plan that is not yet triggered, a block evaluation
halts fatally when a handler for the plan's name is registered, and is a
store-preserving no-op when none is. -/
theorem beginBlocker_not_triggered (handlers : List String) (ctx : Ctx)
    (s : Store) (plan : Plan) (hp : s.plan = some plan)
    (ht : triggered ctx plan = false) :
    (handlers.contains plan.name = true →
      beginBlocker handlers ctx s = .halted "BINARY UPDATED BEFORE TRIGGER!" s []) ∧
    (handlers.contains plan.name = false →
      beginBlocker handlers ctx s = .completed s []) := by
  constructor
  · intro hh
    have hh' : plan.name ∈ handlers := by simpa using hh
    simp [beginBlocker, hp, ht, hh']
  · intro hh
    have hh' : plan.name ∉ handlers := by simpa using hh
    simp [beginBlocker, hp, ht, hh']

/-- Witness for C6: plan "test" at height 11 is not yet triggered at block
10; the registry ["test"] halts, the empty registry is a no-op. -/
theorem beginBlocker_not_triggered_witness :
    (beginBlocker ["test"] ⟨10, 100⟩ { plan := some ⟨"test", 11, 0, ""⟩, done := [] } =
      .halted "BINARY UPDATED BEFORE TRIGGER!" { plan := some ⟨"test", 11, 0, ""⟩, done := [] } []) ∧
    (beginBlocker [] ⟨10, 100⟩ { plan := some ⟨"test", 11, 0, ""⟩, done := [] } =
      .completed { plan := some ⟨"test", 11, 0, ""⟩, done := [] } []) :=
  ⟨(beginBlocker_not_triggered ["test"] ⟨10, 100⟩ _ ⟨"test", 11, 0, ""⟩ rfl (by decide)).1 (by decide),
   (beginBlocker_not_triggered [] ⟨10, 100⟩ _ ⟨"test", 11, 0, ""⟩ rfl (by decide)).2 rfl⟩

/-- C4: a block evaluation whose pending plan is triggered and has a
registered handler invokes the handler exactly once with the current
block context and the plan, completes without a halt, clears the pending
plan (GetUpgradePlan reports not found), and writes a done record for the
plan's name holding the current block height (not the plan's target
height). -/
theorem beginBlocker_applies (handlers : List String) (ctx : Ctx)
    (s : Store) (plan : Plan) (hp : s.plan = some plan)
    (ht : triggered ctx plan = true)
    (hh : handlers.contains plan.name = true)
    (h0 : 0 ≤ ctx.blockHeight) (h1 : ctx.blockHeight < 2 ^ 63) :
    beginBlocker handlers ctx s =
      .completed (setDone ctx plan.name (clearUpgradePlan s)) [(ctx, plan)] ∧
    getUpgradePlan (setDone ctx plan.name (clearUpgradePlan s)) = none ∧
    (setDone ctx plan.name (clearUpgradePlan s)).doneGet plan.name =
      some ctx.blockHeight.toNat := by
  have hh' : plan.name ∈ handlers := by simpa using hh
  refine ⟨by simp [beginBlocker, hp, ht, hh'], ?_, ?_⟩
  · simp [setDone, Store.doneSet, clearUpgradePlan, getUpgradePlan]
  · have hcast : uint64cast ctx.blockHeight = ctx.blockHeight.toNat := by
      unfold uint64cast
      rw [Int.emod_eq_of_lt h0 (by calc ctx.blockHeight < 2 ^ 63 := h1
            _ < 2 ^ 64 := by norm_num)]
    rw [setDone, doneGet_doneSet_self, hcast]

/-- Witness for C4: plan "test" at height 11 triggers at block 11 with
registry ["test"]; the handler runs once, the plan slot is cleared and
the done record stores 11. -/
theorem beginBlocker_applies_witness :
    beginBlocker ["test"] ⟨11, 100⟩ { plan := some ⟨"test", 11, 0, ""⟩, done := [] } =
      .completed (setDone ⟨11, 100⟩ "test"
        (clearUpgradePlan { plan := some ⟨"test", 11, 0, ""⟩, done := [] }))
        [(⟨11, 100⟩, ⟨"test", 11, 0, ""⟩)] ∧
    getUpgradePlan (setDone ⟨11, 100⟩ "test"
      (clearUpgradePlan { plan := some ⟨"test", 11, 0, ""⟩, done := [] })) = none ∧
    (setDone ⟨11, 100⟩ "test"
      (clearUpgradePlan { plan := some ⟨"test", 11, 0, ""⟩, done := [] })).doneGet "test" =
      some (Int.toNat 11) :=
  beginBlocker_applies ["test"] ⟨11, 100⟩ _ ⟨"test", 11, 0, ""⟩ rfl (by decide)
    (by decide) (by decide) (by decide)

/-! ### Helper lemmas about ScheduleUpgrade -/

lemma persistPlan_fst (plan : Plan) (s : Store) :
    (persistPlan plan s).1 = .error .alreadyCompleted ∨
      (persistPlan plan s).1 = .ok () := by
  unfold persistPlan
  split
  · exact Or.inl rfl
  · exact Or.inr rfl

lemma scheduleUpgrade_eq (ctx : Ctx) (plan : Plan) (s : Store)
    (hname : plan.name ≠ "") :
    scheduleUpgrade ctx plan s =
      if plan.time ≠ 0 then
        if ¬ ctx.blockTime < plan.time then (.error .scheduleInPast, s)
        else if plan.height ≠ 0 then (.error .invalidSchedule, s)
        else persistPlan plan s
      else
        if plan.height ≤ ctx.blockHeight then (.error .scheduleInPast, s)
        else persistPlan plan s := by
  unfold scheduleUpgrade
  rw [validateBasic_eq_none hname]

/-! ### Claim theorems: scheduling validation -/

/-- C7: a plan whose name already has a done record and which passes name
and height/time validation is rejected with AlreadyCompleted, leaving the
store unchanged. -/
theorem scheduleUpgrade_alreadyCompleted (ctx : Ctx) (plan : Plan) (s : Store)
    (hname : plan.name ≠ "")
    (hvalid : (plan.time ≠ 0 ∧ ctx.blockTime < plan.time ∧ plan.height = 0) ∨
      (plan.time = 0 ∧ ctx.blockHeight < plan.height))
    (hdone : s.doneHas plan.name = true) :
    scheduleUpgrade ctx plan s = (.error .alreadyCompleted, s) := by
  rw [scheduleUpgrade_eq ctx plan s hname]
  rcases hvalid with ⟨h1, h2, h3⟩ | ⟨h1, h2⟩
  · simp [h1, h2, h3, persistPlan, hdone]
  · have h3 : ¬ plan.height ≤ ctx.blockHeight := not_le.mpr h2
    simp [h1, h3, persistPlan, hdone]

/-- Witness for C7: scheduling "test" for future time 200 at block
(height 10, time 100) when a done record for "test" exists. -/
theorem scheduleUpgrade_alreadyCompleted_witness :
    scheduleUpgrade ⟨10, 100⟩ ⟨"test", 0, 200, ""⟩
        { plan := none, done := [("test", 5)] } =
      (.error .alreadyCompleted, { plan := none, done := [("test", 5)] }) :=
  scheduleUpgrade_alreadyCompleted ⟨10, 100⟩ ⟨"test", 0, 200, ""⟩
    { plan := none, done := [("test", 5)] } (by decide) (by decide) (by decide)

/-- C8: for a plan with exactly one of height/time set (and a valid name),
ScheduleUpgrade fails with ScheduleInPast exactly when the target is not
strictly greater than the current block's height/time; a strictly later
target passes this check and proceeds to the done-record/persist stage. -/
theorem scheduleUpgrade_scheduleInPast (ctx : Ctx) (plan : Plan) (s : Store)
    (hname : plan.name ≠ "")
    (hone : (plan.time ≠ 0 ∧ plan.height = 0) ∨
      (plan.time = 0 ∧ plan.height ≠ 0)) :
    ((scheduleUpgrade ctx plan s).1 = .error .scheduleInPast ↔
      ((plan.time ≠ 0 ∧ plan.time ≤ ctx.blockTime) ∨
        (plan.height ≠ 0 ∧ plan.height ≤ ctx.blockHeight))) ∧
    (((plan.time ≠ 0 ∧ ctx.blockTime < plan.time) ∨
        (plan.height ≠ 0 ∧ ctx.blockHeight < plan.height)) →
      scheduleUpgrade ctx plan s = persistPlan plan s) := by
  rw [scheduleUpgrade_eq ctx plan s hname]
  rcases persistPlan_fst plan s with hc | hc <;>
    rcases hone with ⟨h1, h2⟩ | ⟨h1, h2⟩ <;>
    split_ifs <;>
    simp_all

/-- Witness for C8: scheduling "test" at height 5 when the chain is at
height 10 fails with ScheduleInPast. -/
theorem scheduleUpgrade_scheduleInPast_witness :
    (scheduleUpgrade ⟨10, 100⟩ ⟨"test", 5, 0, ""⟩ initStore).1 =
      .error .scheduleInPast :=
  (scheduleUpgrade_scheduleInPast ⟨10, 100⟩ ⟨"test", 5, 0, ""⟩ initStore
    (by decide) (by decide)).1.mpr (by decide)

/-- C10: whenever ScheduleUpgrade returns an error, it performs no store
write: the pending-plan slot and every done record are unchanged. -/
theorem scheduleUpgrade_error_frame (ctx : Ctx) (plan : Plan) (s : Store)
    (e : ScheduleError) (h : (scheduleUpgrade ctx plan s).1 = .error e) :
    (scheduleUpgrade ctx plan s).2 = s := by
  unfold scheduleUpgrade at h ⊢
  cases hv : plan.validateBasic with
  | some e' => simp [hv]
  | none =>
    simp only [hv] at h ⊢
    split_ifs at h ⊢ <;> try rfl
    all_goals
      unfold persistPlan at h ⊢
      split_ifs at h ⊢ <;> simp_all

/-- Counterexample for C2: (a) a plan with neither height nor time set is
rejected with ScheduleInPast, not InvalidSchedule (its zero height is
"not strictly greater than the current height"); (b) a plan with both set
whose time is not in the future is rejected with ScheduleInPast, not
InvalidSchedule (the past-time check runs first). -/
theorem scheduleUpgrade_invalidSchedule_counterexample :
    ((scheduleUpgrade ⟨10, 100⟩ ⟨"test", 0, 0, ""⟩ initStore).1 =
        .error .scheduleInPast ∧
      (scheduleUpgrade ⟨10, 100⟩ ⟨"test", 0, 0, ""⟩ initStore).1 ≠
        .error .invalidSchedule) ∧
    ((scheduleUpgrade ⟨10, 100⟩ ⟨"test", 20, 50, ""⟩ initStore).1 =
        .error .scheduleInPast ∧
      (scheduleUpgrade ⟨10, 100⟩ ⟨"test", 20, 50, ""⟩ initStore).1 ≠
        .error .invalidSchedule) := by
  have e1 : (scheduleUpgrade ⟨10, 100⟩ ⟨"test", 0, 0, ""⟩ initStore).1 =
      .error .scheduleInPast := rfl
  have e2 : (scheduleUpgrade ⟨10, 100⟩ ⟨"test", 20, 50, ""⟩ initStore).1 =
      .error .scheduleInPast := rfl
  exact ⟨⟨e1, by rw [e1]; simp⟩, e2, by rw [e2]; simp⟩

/-- C2 (amended): for a plan with a non-empty name at a block of
nonnegative height, ScheduleUpgrade fails with InvalidSchedule exactly
when both height and time are set AND the time is strictly in the future;
with both set and the time not in the future it fails with ScheduleInPast
(the past-time check precedes the both-set check), and with neither set
it also fails with ScheduleInPast (height 0 is never strictly greater
than the current height). -/
theorem scheduleUpgrade_invalidSchedule_amended (ctx : Ctx) (plan : Plan)
    (s : Store) (hname : plan.name ≠ "") (hh : 0 ≤ ctx.blockHeight) :
    ((scheduleUpgrade ctx plan s).1 = .error .invalidSchedule ↔
      (plan.time ≠ 0 ∧ plan.height ≠ 0 ∧ ctx.blockTime < plan.time)) ∧
    (plan.time = 0 ∧ plan.height = 0 →
      (scheduleUpgrade ctx plan s).1 = .error .scheduleInPast) ∧
    (plan.time ≠ 0 ∧ plan.height ≠ 0 ∧ plan.time ≤ ctx.blockTime →
      (scheduleUpgrade ctx plan s).1 = .error .scheduleInPast) := by
  rw [scheduleUpgrade_eq ctx plan s hname]
  rcases persistPlan_fst plan s with hc | hc <;>
    split_ifs <;>
    simp_all <;>
    omega

/-- Witness for C2 (amended): at block (height 10, time 100), a plan with
height 20 and future time 200 both set fails with InvalidSchedule. -/
theorem scheduleUpgrade_invalidSchedule_amended_witness :
    (scheduleUpgrade ⟨10, 100⟩ ⟨"test", 20, 200, ""⟩ initStore).1 =
      .error .invalidSchedule :=
  (scheduleUpgrade_invalidSchedule_amended ⟨10, 100⟩ ⟨"test", 20, 200, ""⟩
    initStore (by decide) (by decide)).1.mpr (by decide)

/-- Witness for C10: the rejected empty-name plan leaves the store as it
was. -/
theorem scheduleUpgrade_error_frame_witness :
    (scheduleUpgrade ⟨10, 100⟩ ⟨"", 0, 0, ""⟩ initStore).2 = initStore :=
  scheduleUpgrade_error_frame ⟨10, 100⟩ ⟨"", 0, 0, ""⟩ initStore
    .invalidPlan rfl

/-! ### The at-most-once invariant (C1) -/

/-- 1 when a done record for `name` exists, else 0; the potential used to
bound the number of handler invocations for `name`. -/
def doneInd (name : String) (s : Store) : Nat :=
  if s.doneHas name then 1 else 0

/-- Store invariant for a fixed upgrade name: once a done record for
`name` exists, the pending plan (if any) is not named `name`. -/
def NameInv (name : String) (s : Store) : Prop :=
  s.doneHas name = true → ∀ p, s.plan = some p → p.name ≠ name

lemma doneInd_le_one (name : String) (s : Store) : doneInd name s ≤ 1 := by
  unfold doneInd
  split <;> simp

lemma scheduleUpgrade_snd (ctx : Ctx) (plan : Plan) (s : Store) :
    (scheduleUpgrade ctx plan s).2 = s ∨
      ((scheduleUpgrade ctx plan s).2 = { s with plan := some plan } ∧
        s.doneHas plan.name = false) := by
  unfold scheduleUpgrade
  cases hv : plan.validateBasic with
  | some e => exact Or.inl rfl
  | none =>
    simp only
    split_ifs <;>
      first
      | exact Or.inl rfl
      | · unfold persistPlan
          cases hdone : s.doneHas plan.name with
          | true => simp [hdone]
          | false => simp [hdone]

lemma doneInd_plan_irrelevant (name : String) (s : Store) (p : Option Plan) :
    doneInd name { s with plan := p } = doneInd name s := rfl

lemma applyOp_step (name : String) (s : Store) (op : Op)
    (hinv : NameInv name s) :
    NameInv name (applyOp s op).1 ∧
      callCount name (applyOp s op).2 + doneInd name s ≤
        doneInd name (applyOp s op).1 := by
  cases op with
  | schedule ctx plan =>
    have hfst : (applyOp s (.schedule ctx plan)).1 = (scheduleUpgrade ctx plan s).2 := rfl
    have hsnd : (applyOp s (.schedule ctx plan)).2 = ([] : List (Ctx × Plan)) := rfl
    rcases scheduleUpgrade_snd ctx plan s with h | ⟨h, hdone⟩
    · rw [hfst, hsnd, h]
      exact ⟨hinv, by simp [callCount]⟩
    · rw [hfst, hsnd, h]
      refine ⟨?_, by simp [callCount, doneInd_plan_irrelevant]⟩
      intro hd p hp heq
      have hd' : s.doneHas name = true := hd
      have hp' : p = plan := by simpa using hp.symm
      rw [hp'] at heq
      rw [heq] at hdone
      rw [hdone] at hd'
      exact Bool.noConfusion hd'
  | clear =>
    have hfst : (applyOp s .clear).1 = clearUpgradePlan s := rfl
    have hsnd : (applyOp s .clear).2 = ([] : List (Ctx × Plan)) := rfl
    rw [hfst, hsnd]
    refine ⟨?_, by simp [callCount, clearUpgradePlan, doneInd_plan_irrelevant]⟩
    intro hd p hp
    simp [clearUpgradePlan] at hp
  | beginBlock handlers ctx =>
    cases hp : s.plan with
    | none =>
      have happ : applyOp s (.beginBlock handlers ctx) = (s, []) := by
        simp [applyOp, beginBlocker, hp]
      rw [happ]
      exact ⟨hinv, by simp [callCount]⟩
    | some p =>
      by_cases ht : triggered ctx p
      · by_cases hc : p.name ∈ handlers
        · have happ : applyOp s (.beginBlock handlers ctx) =
              (setDone ctx p.name (clearUpgradePlan s), [(ctx, p)]) := by
            simp [applyOp, beginBlocker, hp, ht, hc]
          rw [happ]
          constructor
          · intro hd q hq
            simp [setDone, Store.doneSet, clearUpgradePlan] at hq
          · by_cases hnm : p.name = name
            · have hdone : s.doneHas name = false := by
                cases hcon : s.doneHas name with
                | false => rfl
                | true => exact absurd hnm (hinv hcon p hp)
              have h1 : doneInd name s = 0 := by
                unfold doneInd
                rw [hdone]
                rfl
              have h2 : doneInd name (setDone ctx p.name (clearUpgradePlan s)) = 1 := by
                unfold doneInd
                rw [setDone, if_pos]
                exact (doneHas_doneSet_iff (clearUpgradePlan s) p.name name _).mpr
                  (Or.inl hnm.symm)
              rw [h1, h2]
              simp [callCount, hnm]
            · have hbool : (setDone ctx p.name (clearUpgradePlan s)).doneHas name =
                  s.doneHas name := by
                rw [Bool.eq_iff_iff, setDone, doneHas_doneSet_iff]
                have hclear : (clearUpgradePlan s).doneHas name = s.doneHas name := rfl
                rw [hclear]
                constructor
                · rintro (h | h)
                  · exact absurd h.symm hnm
                  · exact h
                · exact Or.inr
              have h2 : doneInd name (setDone ctx p.name (clearUpgradePlan s)) =
                  doneInd name s := by
                unfold doneInd
                rw [hbool]
              rw [h2]
              have hcz : callCount name [(ctx, p)] = 0 := by
                simp [callCount, hnm]
              rw [hcz]
              omega
        · have happ : applyOp s (.beginBlock handlers ctx) = (s, []) := by
            simp [applyOp, beginBlocker, hp, ht, hc]
          rw [happ]
          exact ⟨hinv, by simp [callCount]⟩
      · by_cases hc : p.name ∈ handlers
        · have happ : applyOp s (.beginBlock handlers ctx) = (s, []) := by
            simp [applyOp, beginBlocker, hp, ht, hc]
          rw [happ]
          exact ⟨hinv, by simp [callCount]⟩
        · have happ : applyOp s (.beginBlock handlers ctx) = (s, []) := by
            simp [applyOp, beginBlocker, hp, ht, hc]
          rw [happ]
          exact ⟨hinv, by simp [callCount]⟩

lemma run_cons (s : Store) (op : Op) (ops : List Op) :
    run s (op :: ops) =
      ((run (applyOp s op).1 ops).1,
        (applyOp s op).2 ++ (run (applyOp s op).1 ops).2) := rfl

lemma run_le (name : String) (ops : List Op) :
    ∀ s : Store, NameInv name s →
      callCount name (run s ops).2 + doneInd name s ≤
        doneInd name (run s ops).1 := by
  induction ops with
  | nil =>
    intro s _
    simp [run, callCount]
  | cons op ops ih =>
    intro s hinv
    obtain ⟨hinv', hstep⟩ := applyOp_step name s op hinv
    have hrest := ih (applyOp s op).1 hinv'
    rw [run_cons]
    simp only [callCount, List.countP_append] at hstep hrest ⊢
    omega

/-- C1: along every sequence of coordinator operations (ScheduleUpgrade,
ClearUpgradePlan, per-block BeginBlocker evaluations with arbitrary
handler registries) starting from the genesis store, the handler for any
given upgrade name is invoked at most once: the plan-clearing plus
done-record write of a successful trigger, together with ScheduleUpgrade
rejecting names that have a done record, make a second application of the
same name unreachable. -/
theorem upgrade_applied_at_most_once (ops : List Op) (name : String) :
    callCount name (run initStore ops).2 ≤ 1 := by
  have hinv : NameInv name initStore := by
    intro hd p hp
    simp [initStore, Store.doneHas] at hd
  have h := run_le name ops initStore hinv
  have h0 : doneInd name initStore = 0 := by
    unfold doneInd
    simp [initStore, Store.doneHas]
  have h1 := doneInd_le_one name (run initStore ops).1
  omega
